import Mathlib

/-!
Verification of the data pipeline of the trench-coat strategy dashboard
(src/app_trench_v2.py).

The program loads five tabular datasets, derives aggregations
(group-by mean/sum rankings, a share-of-total percentage table, fixed-bucket
price binning, descriptive statistics, a date-window filter and a fixed-offset
golden window) and renders them.  This file gives a shallow embedding of that
pipeline:

* a table row with a keyword, a period (modelled as an integer day number,
  the image of pd.to_datetime) and a ratio value (Option rationals model
  float columns produced by pd.to_numeric with coercion of unparseable
  values to NaN; none = NaN);
* the fixed-bucket price binning of tabs 3 and 5 (pd.cut with
  bins [0, 50000, 100000, 150000, 200000, 300000, inf] and default
  right=True, so each bucket is the half-open interval (lo, hi]);
* the group-by aggregations of tabs 1 and 2 (pandas groupby sorts the group
  keys; sort_values is modelled as a stable sort, which determinizes the
  tie order that pandas' default quicksort leaves unspecified);
* pandas describe() over the price column (std is the sample standard
  deviation, ddof = 1; it is represented here by its square so as to stay
  inside the rationals -- x -> sqrt x is a strictly monotone bijection on
  the nonnegative reals, so definedness and the n-1 divisor are preserved);
* the date-window filter and golden-window offsets of tab 4;
* the load_data loader with its single try/except (any failure yields the
  all-None tuple) and the caller's None check.
-/

namespace Trench

/-- A row of the keyword/period/ratio tables (GrowthComparison,
KeywordExpansion, CoreTrend, Segment): a keyword label, a period
(`pd.to_datetime`, modelled as an integer day number) and the numeric
ratio column (`pd.to_numeric(..., errors='coerce')`; `none` models NaN). -/
structure Row where
  keyword : String
  period : Int
  ratioQ : Option ℚ
deriving DecidableEq

/-- The ShoppingItem table: the coerced numeric `lprice` column, plus the
`price_range` column, which is absent (`none`) after load and is only
created by the assignment `shopping_items['price_range'] = pd.cut(...)`
in tabs 3 and 5. -/
structure ShoppingDF where
  lprice : List (Option ℚ)
  price_range : Option (List (Option String))
deriving DecidableEq

/-- The five loaded tables held by `main` after `load_data`. -/
structure Dashboard where
  full_comparison : List Row
  shopping_items : ShoppingDF
  expansion_v2 : List Row
  core_trend : List Row
  segments : List Row
deriving DecidableEq

/-! ### Fixed-bucket price binning (tab 3, lines 264-272) -/

/-- `price_bins` of tab 3: the finite bin edges `[0, 50000, 100000, 150000,
200000, 300000]`; the source appends `float('inf')` as a final edge, which
is represented by the unbounded last bucket of `binIndex`. -/
def price_bins : List ℚ := [0, 50000, 100000, 150000, 200000, 300000]

/-- `price_labels` of tab 3. -/
def price_labels : List String :=
  ["~5만원", "5~10만원", "10~15만원", "15~20만원", "20~30만원", "30만원~"]

/-- The bucket assignment of `pd.cut(shopping_items['lprice'], bins=price_bins,
labels=price_labels)` in tab 3.  With the default `right=True` and no
`include_lowest`, bucket `i` is the half-open interval `(bins[i], bins[i+1]]`,
the last bucket is `(300000, inf]`, and a value `<= 0` (in particular `0`
itself, the lowest edge) falls in no bucket (NaN). -/
def binIndex (p : ℚ) : Option (Fin 6) :=
  if p ≤ 0 then none
  else if p ≤ 50000 then some 0
  else if p ≤ 100000 then some 1
  else if p ≤ 150000 then some 2
  else if p ≤ 200000 then some 3
  else if p ≤ 300000 then some 4
  else some 5

/-- The `price_range` column created in tab 3 (line 266): the bucket label of
each `lprice` value, NaN (none) for missing or out-of-range prices. -/
def priceRangeColumn (lp : List (Option ℚ)) : List (Option String) :=
  lp.map (fun op => (op.bind binIndex).map (fun i => price_labels.getD i.val ""))

/-- Count of prices landing in bucket `i`. -/
def binCount (lp : List (Option ℚ)) (i : Fin 6) : Nat :=
  lp.countP (fun op => decide (op.bind binIndex = some i))

/-- The sum of the six bucket counts of the tab-3 binning. -/
def totalBinCount (lp : List (Option ℚ)) : Nat :=
  ∑ i : Fin 6, binCount lp i

/-- Number of non-missing prices (`dropna` would keep these). -/
def nonMissingCount (lp : List (Option ℚ)) : Nat :=
  lp.countP (fun op => op.isSome)

/-! ### The independent copy of the binning in tab 5 (lines 431-438) -/

/-- `price_bins` as re-declared inside tab 5. -/
def price_bins_launch : List ℚ := [0, 50000, 100000, 150000, 200000, 300000]

/-- `price_labels` as re-declared inside tab 5. -/
def price_labels_launch : List String :=
  ["~5만원", "5~10만원", "10~15만원", "15~20만원", "20~30만원", "30만원~"]

/-- The bucket assignment of the `pd.cut` call in tab 5 (lines 433-437);
textually the same call as in tab 3. -/
def binIndexLaunch (p : ℚ) : Option (Fin 6) :=
  if p ≤ 0 then none
  else if p ≤ 50000 then some 0
  else if p ≤ 100000 then some 1
  else if p ≤ 150000 then some 2
  else if p ≤ 200000 then some 3
  else if p ≤ 300000 then some 4
  else some 5

/-- The `price_range` column created in tab 5 (line 433). -/
def priceRangeColumnLaunch (lp : List (Option ℚ)) : List (Option String) :=
  lp.map (fun op => (op.bind binIndexLaunch).map (fun i => price_labels_launch.getD i.val ""))

/-! ### The two state-mutating view steps (claim C4) -/

/-- The state effect of tab 3 (price analysis): the single assignment
`shopping_items['price_range'] = pd.cut(shopping_items['lprice'], ...)` at
line 266.  Everything else in the tab only reads the tables. -/
def tab3Step (s : Dashboard) : Dashboard :=
  { s with shopping_items :=
    { s.shopping_items with
      price_range := some (priceRangeColumn s.shopping_items.lprice) } }

/-- The state effect of tab 5 (launch strategy): the same assignment at
line 433. -/
def tab5Step (s : Dashboard) : Dashboard :=
  { s with shopping_items :=
    { s.shopping_items with
      price_range := some (priceRangeColumnLaunch s.shopping_items.lprice) } }

/-! ### The loader (lines 30-62) and its caller (lines 73-77) -/

/-- `load_data`: the five reads/parses run inside one `try`; if any of them
raises, the `except` arm returns `(None, None, None, None, None)`, otherwise
the five parsed tables are returned.  Each argument is the outcome of one
file read/parse. -/
def load_data (r1 : Except String (List Row)) (r2 : Except String ShoppingDF)
    (r3 : Except String (List Row)) (r4 : Except String (List Row))
    (r5 : Except String (List Row)) :
    Option (List Row) × Option ShoppingDF × Option (List Row) ×
      Option (List Row) × Option (List Row) :=
  match r1, r2, r3, r4, r5 with
  | .ok t1, .ok t2, .ok t3, .ok t4, .ok t5 =>
      (some t1, some t2, some t3, some t4, some t5)
  | _, _, _, _, _ => (none, none, none, none, none)

/-- The caller's gate (lines 75-77): `main` returns early unless
`full_comparison is not None`; only then are any views computed. -/
def mainProceeds (res : Option (List Row) × Option ShoppingDF × Option (List Row) ×
    Option (List Row) × Option (List Row)) : Bool :=
  res.1.isSome

/-! ### Group-by aggregation (tabs 1 and 2)

pandas `groupby('keyword')` with the default `sort=True` enumerates the
groups in ascending lexicographic order of the keyword, not in order of
first occurrence.  `insertKey`/`groupKeys` build that sorted, duplicate-free
key list. -/

/-- Insert a key into a sorted duplicate-free key list. -/
def insertKey (k : String) : List String → List String
  | [] => [k]
  | y :: ys =>
    if k = y then y :: ys
    else if k < y then k :: y :: ys
    else y :: insertKey k ys

/-- The sorted distinct group keys of a (keyword, value) row list, as
produced by `groupby('keyword')`. -/
def groupKeys (rows : List (String × Option ℚ)) : List String :=
  rows.foldr (fun r acc => insertKey r.1 acc) []

/-- The keyword labels in order of first occurrence in the input (the
order the claim C3 asserts for tie-breaking). -/
def firstOccKeys (rows : List (String × Option ℚ)) : List String :=
  rows.foldl (fun acc r => if r.1 ∈ acc then acc else acc ++ [r.1]) []

/-- The ratio column restricted to one keyword group. -/
def ratiosOf (rows : List (String × Option ℚ)) (k : String) : List (Option ℚ) :=
  (rows.filter (fun r => r.1 == k)).map (fun r => r.2)

/-- pandas mean with the default `skipna=True`: the arithmetic mean of the
non-missing values, NaN (none) when there are none. -/
def meanOpt (vals : List (Option ℚ)) : Option ℚ :=
  let xs := vals.reduceOption
  if xs.length = 0 then none else some (xs.sum / (xs.length : ℚ))

/-- `full_comparison.groupby('keyword')['ratio'].mean()`: one entry per
group key, keys ascending. -/
def groupbyMean (rows : List (String × Option ℚ)) : List (String × Option ℚ) :=
  (groupKeys rows).map (fun k => (k, meanOpt (ratiosOf rows k)))

/-- The ranking key of `sort_values(ascending=False)` on a float column:
`vge a b` holds when `a` sorts at-or-before `b`, with NaN placed last
(the default `na_position='last'`). -/
def vge (a b : Option ℚ) : Bool :=
  match a, b with
  | some x, some y => decide (y ≤ x)
  | some _, none => true
  | none, some _ => false
  | none, none => true

/-- Stable insertion step of the descending sort. -/
def insertDescM (x : String × Option ℚ) :
    List (String × Option ℚ) → List (String × Option ℚ)
  | [] => [x]
  | y :: ys => if vge x.2 y.2 then x :: y :: ys else y :: insertDescM x ys

/-- `sort_values(ascending=False)` on the mean series, modelled as a stable
sort (pandas' default quicksort leaves the tie order unspecified; stability
is the determinization under which the tie statements below are settled). -/
def sortDescM : List (String × Option ℚ) → List (String × Option ℚ)
  | [] => []
  | x :: xs => insertDescM x (sortDescM xs)

/-- Line 114: `full_comparison.groupby('keyword')['ratio'].mean()
.sort_values(ascending=False).head(n)` with `n = 15`. -/
def category_growth (n : Nat) (rows : List (String × Option ℚ)) :
    List (String × Option ℚ) :=
  (sortDescM (groupbyMean rows)).take n

/-! ### Share-of-total percentages (tab 2, lines 168-170) -/

/-- pandas group sum with the default `skipna=True` (an all-NaN group sums
to 0). -/
def groupSum (rows : List (String × Option ℚ)) (k : String) : ℚ :=
  ((ratiosOf rows k).reduceOption).sum

/-- Stable insertion step of the descending sort on the summed series. -/
def insertDescQ (x : String × ℚ) : List (String × ℚ) → List (String × ℚ)
  | [] => [x]
  | y :: ys => if y.2 ≤ x.2 then x :: y :: ys else y :: insertDescQ x ys

/-- Stable descending sort on the summed series. -/
def sortDescQ : List (String × ℚ) → List (String × ℚ)
  | [] => []
  | x :: xs => insertDescQ x (sortDescQ xs)

/-- Line 168: `keyword_demand = expansion_v2.groupby('keyword')['ratio']
.sum().sort_values(ascending=False)`. -/
def keyword_demand (rows : List (String × Option ℚ)) : List (String × ℚ) :=
  sortDescQ ((groupKeys rows).map (fun k => (k, groupSum rows k)))

/-- Line 169: `total_demand = keyword_demand.sum()`. -/
def total_demand (rows : List (String × Option ℚ)) : ℚ :=
  ((keyword_demand rows).map (fun p => p.2)).sum

/-- Python `round(x, 2)`: rounding to the nearest multiple of 1/100 (the
claim only uses that the result is within 1/200 of the argument, which
holds for any tie-breaking direction at exact midpoints). -/
def round2 (x : ℚ) : ℚ := ((round (x * 100) : ℤ) : ℚ) / 100

/-- Line 170: `keyword_pct = (keyword_demand / total_demand * 100).round(2)`. -/
def keyword_pct (rows : List (String × Option ℚ)) : List (String × ℚ) :=
  (keyword_demand rows).map (fun p => (p.1, round2 (p.2 / total_demand rows * 100)))

/-! ### Date-window filter and golden window (tab 4) -/

/-- Lines 304-307: `core_trend[(core_trend['period'] >= start_date) &
(core_trend['period'] <= end_date)]`. -/
def filterWindow (t : List Row) (start_d end_d : Int) : List Row :=
  t.filter (fun r => decide (start_d ≤ r.period) && decide (r.period ≤ end_d))

/-- Line 378: `golden_start = ipchun_date`. -/
def goldenStart (anchor : Int) : Int := anchor

/-- Line 379: `golden_end = ipchun_date + pd.Timedelta(days=14)`. -/
def goldenEnd (anchor : Int) : Int := anchor + 14

/-- Line 395: `campaign_start = golden_start - pd.Timedelta(days=7)`. -/
def campaignStart (anchor : Int) : Int := anchor - 7

/-- Lines 381-384: the trend rows inside the golden window. -/
def goldenPeriod (t : List Row) (anchor : Int) : List Row :=
  filterWindow t (goldenStart anchor) (goldenEnd anchor)

/-- Days in the months of a common (non-leap) year, cumulated: the day
number of day `d` of month `m` of a common year such as 2025, counted from
January 1 = 1.  2025 is not a leap year, so this suffices to talk about the
concrete dates of claim C8. -/
def dayOfYear2025 (m d : Nat) : Nat :=
  [0, 31, 59, 90, 120, 151, 181, 212, 243, 273, 304, 334].getD (m - 1) 0 + d

/-- The day number of a 2025 date as an integer timeline point (the image
of `pd.to_datetime('2025-..-..')` on the day axis). -/
def dayNumber2025 (m d : Nat) : Int := (dayOfYear2025 m d : Int)

/-! ### Descriptive statistics (tab 3, lines 246-260): pandas describe() -/

/-- The statistics row of `prices.describe()` used by the dashboard.
`stdSq` is the square of the reported standard deviation (kept squared to
stay inside ℚ); every statistic other than the count is NaN (none) when it
is undefined. -/
structure PriceStats where
  countN : Nat
  meanV : Option ℚ
  stdSq : Option ℚ
  minV : Option ℚ
  q1 : Option ℚ
  medianV : Option ℚ
  q3 : Option ℚ
  maxV : Option ℚ
deriving DecidableEq

/-- Mean of a plain rational list, none when empty. -/
def meanQ (xs : List ℚ) : Option ℚ :=
  if xs.length = 0 then none else some (xs.sum / (xs.length : ℚ))

/-- The square of the sample standard deviation (pandas `std`, `ddof=1`):
the sum of squared deviations from the mean divided by `n - 1`; NaN (none)
for fewer than two values. -/
def sampleVarQ (xs : List ℚ) : Option ℚ :=
  if xs.length < 2 then none
  else some ((xs.map (fun x => (x - xs.sum / (xs.length : ℚ)) ^ 2)).sum /
    ((xs.length : ℚ) - 1))

/-- Quantile with linear interpolation (pandas `Series.quantile`, the
method used by `describe`) over an already sorted list; none when empty. -/
def quantileQ (s : List ℚ) (q : ℚ) : Option ℚ :=
  if s.length = 0 then none
  else
    let n := s.length
    let h := q * ((n : ℚ) - 1)
    let i := (Int.floor h).toNat
    let j := min (i + 1) (n - 1)
    let lo := s.getD i 0
    let hi := s.getD j 0
    some (lo + (h - (i : ℚ)) * (hi - lo))

/-- `prices.describe()` over the dropna'd price column (line 247):
count, mean, std (represented by its square), min, quartiles, max. -/
def describe (prices : List (Option ℚ)) : PriceStats :=
  let xs := prices.reduceOption
  let s := List.insertionSort (fun a b => a ≤ b) xs
  { countN := xs.length
    meanV := meanQ xs
    stdSq := sampleVarQ xs
    minV := s.head?
    q1 := quantileQ s (1/4)
    medianV := quantileQ s (1/2)
    q3 := quantileQ s (3/4)
    maxV := s.getLast? }

/-! ### The modal price bucket of tabs 3 and 5 (claim C10) -/

/-- The tab-3 histogram `price_dist = shopping_items['price_range']
.value_counts().sort_index()`: one count per bucket, in bucket (category)
order.  On a categorical column every category appears, with count 0 when
empty. -/
def price_dist (lp : List (Option ℚ)) : List (String × Nat) :=
  (List.finRange 6).map (fun i => (price_labels.getD i.val "", binCount lp i))

/-- One count per bucket for the tab-5 copy of the binning, in bucket
order (the category-order count table that `value_counts()` sorts). -/
def binCountLaunch (lp : List (Option ℚ)) (i : Fin 6) : Nat :=
  lp.countP (fun op => decide (op.bind binIndexLaunch = some i))

/-- Stable insertion step of the descending sort on counts. -/
def insertDescCnt (x : String × Nat) : List (String × Nat) → List (String × Nat)
  | [] => [x]
  | y :: ys => if y.2 ≤ x.2 then x :: y :: ys else y :: insertDescCnt x ys

/-- Stable descending sort on counts (`value_counts()` returns the counts
in descending order; ties are determinized by stability). -/
def sortDescCnt : List (String × Nat) → List (String × Nat)
  | [] => []
  | x :: xs => insertDescCnt x (sortDescCnt xs)

/-- The tab-5 histogram `price_dist = shopping_items['price_range']
.value_counts()` (line 438): bucket counts in descending count order. -/
def price_dist_launch (lp : List (Option ℚ)) : List (String × Nat) :=
  sortDescCnt ((List.finRange 6).map
    (fun i => (price_labels_launch.getD i.val "", binCountLaunch lp i)))

/-- `idxmax` combining step: the earlier entry wins a tie. -/
def firstMaxPair (x : String × Nat) : Option (String × Nat) → String × Nat
  | none => x
  | some y => if y.2 ≤ x.2 then x else y

/-- `Series.idxmax`: the index label of the first occurrence of the
maximal value. -/
def firstMax : List (String × Nat) → Option (String × Nat)
  | [] => none
  | x :: xs => some (firstMaxPair x (firstMax xs))

/-- Line 293: the modal price range reported by tab 3,
`price_dist.idxmax()` over the category-ordered counts. -/
def modalBucketTab3 (lp : List (Option ℚ)) : Option String :=
  (firstMax (price_dist lp)).map (fun p => p.1)

/-- Line 444: the modal price range reported by tab 5,
`price_dist.idxmax()` over the descending counts. -/
def modalBucketTab5 (lp : List (Option ℚ)) : Option String :=
  (firstMax (price_dist_launch lp)).map (fun p => p.1)

/-! ### Auxiliary predicates and test fixtures -/

/-- Whether an optional price is present and strictly positive (the prices
that actually land in some bucket of the tab-3 binning). -/
def isPositivePrice (op : Option ℚ) : Bool :=
  match op with
  | some p => decide (0 < p)
  | none => false

/-- The order in which the ranked mean table is emitted: `a` comes before
`b` when `a`'s mean ranks at-or-above `b`'s (descending, NaN last) and,
in case both rank at-or-above each other (a tie), `a`'s keyword is
lexicographically smaller. -/
def rankedBefore (a b : String × Option ℚ) : Prop :=
  vge a.2 b.2 = true ∧ (vge b.2 a.2 = true → a.1 < b.1)

/-- A two-keyword input whose two groups have equal means, with the
keywords first occurring in descending lexicographic order. -/
def tieRows : List (String × Option ℚ) := [("b", some 1), ("a", some 1)]

/-! ## Theorems -/

/-- A price lands in some bucket of the tab-3 binning exactly when it is
strictly positive. -/
theorem binIndex_isSome_iff (p : ℚ) : (binIndex p).isSome = true ↔ 0 < p := by
  unfold binIndex
  split_ifs with h1 h2 h3 h4 h5 h6 <;> simp <;> linarith

/-- C1, counterexample.  The claim says a price exactly on an interior
boundary belongs to the upper bucket; but `pd.cut` with the default
`right=True` puts 50000 into bucket 0 (`~5만원`, the bucket that *ends* at
50000), not into bucket 1 (`5~10만원`). -/
theorem C1_boundary_price_in_lower_bucket_cex :
    binIndex 50000 = some 0 ∧ binIndex 50000 ≠ some 1 ∧
    price_labels.getD 0 "" = "~5만원" ∧ price_labels.getD 1 "" = "5~10만원" := by
  refine ⟨by decide, by decide, rfl, rfl⟩

/-- C1, amended.  The buckets of the fixed-bucket price binning are
half-open of the form (lo, hi]: a value exactly on an interior boundary
(50000, 100000, 150000, 200000 or 300000) is assigned to the lower bucket,
the one whose range ends at that boundary; values at or below the lowest
edge 0 are assigned to no bucket. -/
theorem C1_buckets_left_open_right_closed (p : ℚ) :
    (binIndex p = some 0 ↔ 0 < p ∧ p ≤ 50000) ∧
    (binIndex p = some 1 ↔ 50000 < p ∧ p ≤ 100000) ∧
    (binIndex p = some 2 ↔ 100000 < p ∧ p ≤ 150000) ∧
    (binIndex p = some 3 ↔ 150000 < p ∧ p ≤ 200000) ∧
    (binIndex p = some 4 ↔ 200000 < p ∧ p ≤ 300000) ∧
    (binIndex p = some 5 ↔ 300000 < p) ∧
    (binIndex p = none ↔ p ≤ 0) := by
  unfold binIndex
  split_ifs with h1 h2 h3 h4 h5 h6 <;>
    refine ⟨?_, ?_, ?_, ?_, ?_, ?_, ?_⟩ <;> simp <;>
    first
      | (constructor <;> linarith)
      | (rintro ⟨ha, hb⟩; linarith)
      | (intro h h2; linarith)
      | (intro h; linarith)
      | linarith
      | trivial

/-- C2, counterexample.  A non-missing price equal to 0 falls into no
bucket: with the single price 0, all six bucket counts are 0 while the
count of non-missing prices is 1, so the bucket counts do not sum to the
number of non-missing prices. -/
theorem C2_price_zero_in_no_bucket_cex :
    totalBinCount [some (0 : ℚ)] = 0 ∧ nonMissingCount [some (0 : ℚ)] = 1 ∧
    totalBinCount [some (0 : ℚ)] ≠ nonMissingCount [some (0 : ℚ)] := by
  refine ⟨by decide, by decide, by decide⟩

/-- C2, amended.  The binning is exhaustive and disjoint over the
*strictly positive* non-missing prices: every non-missing price `> 0`
falls into exactly one bucket, and the six bucket counts sum to the number
of non-missing strictly positive prices.  A non-missing price `≤ 0` (in
particular a price equal to 0) falls into no bucket. -/
theorem C2_bin_counts_sum_to_positive_price_count (lp : List (Option ℚ)) :
    totalBinCount lp = lp.countP isPositivePrice ∧
    (∀ p : ℚ, (binIndex p).isSome = true ↔ 0 < p) := by
  refine ⟨?_, fun p => binIndex_isSome_iff p⟩
  induction lp with
  | nil => simp [totalBinCount, binCount, nonMissingCount]
  | cons a l ih =>
    have hbc : ∀ i : Fin 6, binCount (a :: l) i =
        binCount l i + (if a.bind binIndex = some i then 1 else 0) := by
      intro i
      simp [binCount, List.countP_cons]
    have hsum : (∑ i : Fin 6, (if a.bind binIndex = some i then 1 else 0)) =
        (if isPositivePrice a then 1 else 0) := by
      cases ha : a with
      | none => simp [isPositivePrice]
      | some p =>
        by_cases hp : 0 < p
        · have : (binIndex p).isSome = true := (binIndex_isSome_iff p).mpr hp
          rcases Option.isSome_iff_exists.mp this with ⟨j, hj⟩
          simp [hj, isPositivePrice, hp, eq_comm]
        · have : binIndex p = none := by
            cases hb : binIndex p with
            | none => rfl
            | some j =>
              exact absurd ((binIndex_isSome_iff p).mp (by simp [hb])) hp
          simp [this, isPositivePrice, hp]
    calc totalBinCount (a :: l)
        = ∑ i : Fin 6, (binCount l i + (if a.bind binIndex = some i then 1 else 0)) := by
          unfold totalBinCount
          exact Finset.sum_congr rfl (fun i _ => hbc i)
      _ = totalBinCount l + (if isPositivePrice a then 1 else 0) := by
          rw [Finset.sum_add_distrib, hsum]; rfl
      _ = (a :: l).countP isPositivePrice := by
          rw [ih, List.countP_cons]

/-- C4, counterexample.  The price-analysis step is not mutation-free: on a
state fresh from load (no `price_range` column), the assignment
`shopping_items['price_range'] = pd.cut(...)` changes the ShoppingItem
table. -/
theorem C4_price_analysis_mutates_shopping_items_cex :
    (tab3Step ⟨[], ⟨[], none⟩, [], [], []⟩).shopping_items ≠
      (⟨[], ⟨[], none⟩, [], [], []⟩ : Dashboard).shopping_items := by
  decide

/-- C4, amended.  The view-assembly steps leave GrowthComparison,
KeywordExpansion, CoreTrend and Segment untouched and do not change the
`lprice` data of ShoppingItem; the only mutation is that the price-analysis
and launch-strategy steps write the derived `price_range` column onto the
ShoppingItem table. -/
theorem C4_steps_only_write_price_range (s : Dashboard) :
    (tab3Step s).full_comparison = s.full_comparison ∧
    (tab3Step s).expansion_v2 = s.expansion_v2 ∧
    (tab3Step s).core_trend = s.core_trend ∧
    (tab3Step s).segments = s.segments ∧
    (tab3Step s).shopping_items.lprice = s.shopping_items.lprice ∧
    (tab3Step s).shopping_items.price_range =
      some (priceRangeColumn s.shopping_items.lprice) ∧
    (tab5Step s).full_comparison = s.full_comparison ∧
    (tab5Step s).expansion_v2 = s.expansion_v2 ∧
    (tab5Step s).core_trend = s.core_trend ∧
    (tab5Step s).segments = s.segments ∧
    (tab5Step s).shopping_items.lprice = s.shopping_items.lprice ∧
    (tab5Step s).shopping_items.price_range =
      some (priceRangeColumnLaunch s.shopping_items.lprice) :=
  ⟨rfl, rfl, rfl, rfl, rfl, rfl, rfl, rfl, rfl, rfl, rfl, rfl⟩

/-- C5, confirmed.  The load is atomic and fail-closed: the caller's gate
passes exactly when all five reads/parses succeeded; if any of them fails,
the whole load collapses to the all-None tuple (no partial
initialization), and whenever the gate passes, all five tables are
present. -/
theorem C5_load_atomic_fail_closed
    (r1 : Except String (List Row)) (r2 : Except String ShoppingDF)
    (r3 : Except String (List Row)) (r4 : Except String (List Row))
    (r5 : Except String (List Row)) :
    (mainProceeds (load_data r1 r2 r3 r4 r5) = true ↔
      (r1.isOk = true ∧ r2.isOk = true ∧ r3.isOk = true ∧
        r4.isOk = true ∧ r5.isOk = true)) ∧
    (¬(r1.isOk = true ∧ r2.isOk = true ∧ r3.isOk = true ∧
        r4.isOk = true ∧ r5.isOk = true) →
      load_data r1 r2 r3 r4 r5 = (none, none, none, none, none)) ∧
    (mainProceeds (load_data r1 r2 r3 r4 r5) = true →
      ∃ t1 t2 t3 t4 t5, r1 = .ok t1 ∧ r2 = .ok t2 ∧ r3 = .ok t3 ∧
        r4 = .ok t4 ∧ r5 = .ok t5 ∧
        load_data r1 r2 r3 r4 r5 = (some t1, some t2, some t3, some t4, some t5)) := by
  cases r1 <;> cases r2 <;> cases r3 <;> cases r4 <;> cases r5 <;>
    simp [load_data, mainProceeds, Except.isOk, Except.toBool]

/-- C5, witness: with the first file read failing, the load collapses to
the all-None tuple. -/
theorem C5_load_atomic_fail_closed_witness :
    load_data (.error "read failed") (.ok ⟨[], none⟩) (.ok []) (.ok []) (.ok [])
      = (none, none, none, none, none) :=
  (C5_load_atomic_fail_closed (.error "read failed") (.ok ⟨[], none⟩)
    (.ok []) (.ok []) (.ok [])).2.1 (by decide)

/-- C7, confirmed.  The date-window filter keeps exactly the rows whose
period lies in the closed interval [start, end]: a row on either boundary
is retained, a row one day outside either boundary is excluded, and an
empty match yields the empty table. -/
theorem C7_filter_inclusive_both_ends (t : List Row) (s e : Int) :
    (∀ r : Row, r ∈ filterWindow t s e ↔ r ∈ t ∧ s ≤ r.period ∧ r.period ≤ e) ∧
    (s ≤ e → ∀ r ∈ t, (r.period = s ∨ r.period = e) → r ∈ filterWindow t s e) ∧
    (∀ r ∈ t, r.period = s - 1 → r ∉ filterWindow t s e) ∧
    (∀ r ∈ t, r.period = e + 1 → r ∉ filterWindow t s e) ∧
    ((∀ r ∈ t, ¬(s ≤ r.period ∧ r.period ≤ e)) → filterWindow t s e = []) := by
  have hmem : ∀ r : Row, r ∈ filterWindow t s e ↔
      r ∈ t ∧ s ≤ r.period ∧ r.period ≤ e := by
    intro r
    simp [filterWindow, List.mem_filter]
  refine ⟨hmem, ?_, ?_, ?_, ?_⟩
  · rintro hse r hr (h | h) <;> exact (hmem r).mpr ⟨hr, by omega, by omega⟩
  · rintro r hr h hin
    have := ((hmem r).mp hin).2
    omega
  · rintro r hr h hin
    have := ((hmem r).mp hin).2
    omega
  · intro h
    rcases hfe : filterWindow t s e with _ | ⟨a, l⟩
    · rfl
    · have ha : a ∈ filterWindow t s e := by rw [hfe]; exact List.mem_cons_self a l
      have := (hmem a).mp ha
      exact absurd ⟨this.2.1, this.2.2⟩ (h a this.1)

/-- C7, witness: a one-row table whose period equals the start boundary is
retained by the filter. -/
theorem C7_filter_inclusive_both_ends_witness :
    (⟨"k", 5, some 1⟩ : Row) ∈ filterWindow [⟨"k", 5, some 1⟩] 5 7 :=
  (C7_filter_inclusive_both_ends [⟨"k", 5, some 1⟩] 5 7).2.1 (by decide)
    ⟨"k", 5, some 1⟩ (List.mem_cons_self _ _) (Or.inl rfl)

/-- C8, confirmed.  The golden window is the closed interval
[anchor, anchor + 14 days] and the recommended campaign start is
anchor - 7 days; for the anchor 2025-02-03 (day 34 of 2025) the window
ends 2025-02-17 (day 48) and the campaign starts 2025-01-27 (day 27). -/
theorem C8_golden_window_offsets (anchor : Int) (t : List Row) :
    goldenStart anchor = anchor ∧
    goldenEnd anchor = anchor + 14 ∧
    campaignStart anchor = anchor - 7 ∧
    goldenPeriod t anchor = filterWindow t anchor (anchor + 14) ∧
    goldenEnd (dayNumber2025 2 3) = dayNumber2025 2 17 ∧
    campaignStart (dayNumber2025 2 3) = dayNumber2025 1 27 :=
  ⟨rfl, rfl, rfl, rfl, by decide, by decide⟩

/-- C9, confirmed.  The descriptive statistics over the dropna'd price
series report the sample standard deviation (squared deviations from the
mean divided by n - 1); the computation is total: with fewer than two
values the standard deviation is the NaN sentinel instead of an error, and
with no values every statistic other than the count is the NaN sentinel. -/
theorem C9_describe_sample_std_total (prices : List (Option ℚ)) :
    (describe prices).countN = prices.reduceOption.length ∧
    (2 ≤ prices.reduceOption.length →
      (describe prices).stdSq = some
        ((prices.reduceOption.map (fun x => (x - prices.reduceOption.sum /
            (prices.reduceOption.length : ℚ)) ^ 2)).sum /
          ((prices.reduceOption.length : ℚ) - 1))) ∧
    (prices.reduceOption.length ≤ 1 → (describe prices).stdSq = none) ∧
    (prices.reduceOption.length = 0 →
      (describe prices).meanV = none ∧ (describe prices).stdSq = none ∧
      (describe prices).minV = none ∧ (describe prices).q1 = none ∧
      (describe prices).medianV = none ∧ (describe prices).q3 = none ∧
      (describe prices).maxV = none) := by
  refine ⟨rfl, ?_, ?_, ?_⟩
  · intro h
    show sampleVarQ _ = _
    unfold sampleVarQ
    rw [if_neg (by omega)]
  · intro h
    show sampleVarQ _ = _
    unfold sampleVarQ
    rw [if_pos (by omega)]
  · intro h
    have hx : prices.reduceOption = [] := List.length_eq_zero.mp h
    refine ⟨?_, ?_, ?_, ?_, ?_, ?_, ?_⟩ <;>
      simp [describe, hx, meanQ, sampleVarQ, quantileQ, List.insertionSort]

/-- C9, witness: on the two-value series [1, 3] the reported (squared)
standard deviation is the sum of squared deviations divided by n - 1 = 1. -/
theorem C9_describe_sample_std_total_witness :
    (describe [some (1 : ℚ), some 3, none]).stdSq = some
      ((([some (1 : ℚ), some 3, none].reduceOption).map
          (fun x => (x - ([some (1 : ℚ), some 3, none].reduceOption).sum /
            (([some (1 : ℚ), some 3, none].reduceOption).length : ℚ)) ^ 2)).sum /
        ((([some (1 : ℚ), some 3, none].reduceOption).length : ℚ) - 1)) :=
  (C9_describe_sample_std_total [some (1 : ℚ), some 3, none]).2.1 (by decide)

/-- `idxmax` of a list after a stable descending insertion: the inserted
element participates exactly through the first-max combining step. -/
theorem firstMax_insertDescCnt (x : String × Nat) (m : List (String × Nat)) :
    firstMax (insertDescCnt x m) = some (firstMaxPair x (firstMax m)) := by
  induction m with
  | nil => rfl
  | cons y ys ih =>
    by_cases h : y.2 ≤ x.2
    · simp [insertDescCnt, h, firstMax]
    · simp only [insertDescCnt, if_neg h, firstMax, ih, Option.some.injEq]
      cases hys : firstMax ys with
      | none =>
        simp only [firstMaxPair]
        split_ifs <;> first | rfl | omega
      | some z =>
        simp only [firstMaxPair]
        split_ifs <;> first | rfl | omega

/-- `idxmax` is invariant under the stable descending sort: the first
maximum of the sorted counts is the first maximum of the category-ordered
counts. -/
theorem firstMax_sortDescCnt (l : List (String × Nat)) :
    firstMax (sortDescCnt l) = firstMax l := by
  induction l with
  | nil => rfl
  | cons x xs ih => simp [sortDescCnt, firstMax_insertDescCnt, ih, firstMax]

/-- C10, confirmed.  The price binning of the price-analysis view and the
one recomputed in the launch-strategy view use the same bucket boundaries
and labels, assign every price to the same bucket, and report the same
modal price range (ties between equally common buckets resolve to the
lowest bucket in both views under the stable model of the sort). -/
theorem C10_two_binnings_agree (p : ℚ) (lp : List (Option ℚ)) :
    binIndex p = binIndexLaunch p ∧
    price_bins = price_bins_launch ∧
    price_labels = price_labels_launch ∧
    priceRangeColumn lp = priceRangeColumnLaunch lp ∧
    modalBucketTab3 lp = modalBucketTab5 lp := by
  refine ⟨rfl, rfl, rfl, rfl, ?_⟩
  unfold modalBucketTab3 modalBucketTab5 price_dist_launch
  rw [firstMax_sortDescCnt]
  rfl

/-- Rounding to two decimal places moves a value by at most 1/200. -/
theorem round2_close (x : ℚ) : |round2 x - x| ≤ 1 / 200 := by
  unfold round2
  have h : |x * 100 - ((round (x * 100) : ℤ) : ℚ)| ≤ 1 / 2 := abs_sub_round (x * 100)
  rw [abs_sub_comm] at h
  have h2 : ((round (x * 100) : ℤ) : ℚ) / 100 - x =
      (((round (x * 100) : ℤ) : ℚ) - x * 100) / 100 := by ring
  rw [h2, abs_div, abs_of_pos (show (0 : ℚ) < 100 by norm_num),
    show (1 : ℚ) / 200 = (1 / 2) / 100 by norm_num]
  exact (div_le_div_iff_of_pos_right (by norm_num)).mpr h

/-- Summing values that are pointwise within `c` of reference values moves
the sum by at most `length * c`. -/
theorem abs_sum_map_sub_le (l : List (String × ℚ)) (f g : (String × ℚ) → ℚ)
    (c : ℚ) (h : ∀ x ∈ l, |f x - g x| ≤ c) :
    |(l.map f).sum - (l.map g).sum| ≤ l.length * c := by
  induction l with
  | nil => simp
  | cons a l ih =>
    have ha := h a (List.mem_cons_self a l)
    have hrest := ih (fun x hx => h x (List.mem_cons_of_mem a hx))
    have hsplit : (((a :: l).map f).sum - ((a :: l).map g).sum)
        = (f a - g a) + ((l.map f).sum - (l.map g).sum) := by
      simp only [List.map_cons, List.sum_cons]
      ring
    rw [hsplit]
    calc |(f a - g a) + ((l.map f).sum - (l.map g).sum)|
        ≤ |f a - g a| + |(l.map f).sum - (l.map g).sum| := abs_add _ _
      _ ≤ c + l.length * c := add_le_add ha hrest
      _ = (a :: l).length * c := by
          simp only [List.length_cons]
          push_cast
          ring

/-- Dividing each summand by `T` and scaling by 100 factors out of the sum. -/
theorem sum_map_div_mul (l : List (String × ℚ)) (T : ℚ) :
    (l.map (fun p => p.2 / T * 100)).sum = (l.map (fun p => p.2)).sum / T * 100 := by
  induction l with
  | nil => simp
  | cons a l ih =>
    simp only [List.map_cons, List.sum_cons, ih]
    ring

/-- C6, confirmed.  Whenever the grand total of per-keyword ratio sums is
non-zero, the rounded share-of-total percentages over the complete group
set sum to 100 up to rounding error: the deviation is at most 1/200 per
group. -/
theorem C6_keyword_pct_sums_to_100 (rows : List (String × Option ℚ))
    (h : total_demand rows ≠ 0) :
    |((keyword_pct rows).map (fun p => p.2)).sum - 100| ≤
      (keyword_pct rows).length * (1 / 200) := by
  have hpct : (keyword_pct rows).map (fun p => p.2) =
      (keyword_demand rows).map (fun p => round2 (p.2 / total_demand rows * 100)) := by
    simp [keyword_pct]
  have hlen : (keyword_pct rows).length = (keyword_demand rows).length := by
    simp [keyword_pct]
  have htrue : ((keyword_demand rows).map
      (fun p => p.2 / total_demand rows * 100)).sum = 100 := by
    rw [sum_map_div_mul]
    rw [show ((keyword_demand rows).map (fun p => p.2)).sum = total_demand rows from rfl]
    rw [div_self h, one_mul]
  rw [hpct, hlen]
  calc |((keyword_demand rows).map
          (fun p => round2 (p.2 / total_demand rows * 100))).sum - 100|
      = |((keyword_demand rows).map
          (fun p => round2 (p.2 / total_demand rows * 100))).sum -
         ((keyword_demand rows).map
          (fun p => p.2 / total_demand rows * 100)).sum| := by rw [htrue]
    _ ≤ (keyword_demand rows).length * (1 / 200) :=
        abs_sum_map_sub_le (keyword_demand rows)
          (fun p => round2 (p.2 / total_demand rows * 100))
          (fun p => p.2 / total_demand rows * 100) (1 / 200)
          (fun x _ => round2_close _)

/-- C6, witness: a one-group input with ratio sum 100 has non-zero total,
so the rounded percentage column sums to 100 within the bound. -/
theorem C6_keyword_pct_sums_to_100_witness :
    total_demand [("a", some (100 : ℚ))] ≠ 0 ∧
    |((keyword_pct [("a", some (100 : ℚ))]).map (fun p => p.2)).sum - 100| ≤
      (keyword_pct [("a", some (100 : ℚ))]).length * (1 / 200) := by
  have h : total_demand [("a", some (100 : ℚ))] ≠ 0 := by
    simp [total_demand, keyword_demand, groupKeys, insertKey, sortDescQ,
      insertDescQ, groupSum, ratiosOf, List.reduceOption]
  exact ⟨h, C6_keyword_pct_sums_to_100 [("a", some (100 : ℚ))] h⟩

/-- The ranking order `vge` is total. -/
theorem vge_total (a b : Option ℚ) : vge a b = true ∨ vge b a = true := by
  cases a <;> cases b <;> simp [vge] <;> exact le_total _ _

/-- The ranking order `vge` is transitive. -/
theorem vge_trans {a b c : Option ℚ} (h1 : vge a b = true) (h2 : vge b c = true) :
    vge a c = true := by
  cases a <;> cases b <;> cases c <;> simp_all [vge] <;> linarith

/-- Membership in the sort insertion step. -/
theorem mem_insertDescM {a x : String × Option ℚ} {m : List (String × Option ℚ)} :
    a ∈ insertDescM x m ↔ a = x ∨ a ∈ m := by
  induction m with
  | nil => simp [insertDescM]
  | cons y ys ih =>
    by_cases h : vge x.2 y.2 = true
    · simp [insertDescM, h]
    · simp only [insertDescM, if_neg h, List.mem_cons, ih]
      tauto

/-- The stable descending sort permutes membership. -/
theorem mem_sortDescM {a : String × Option ℚ} {l : List (String × Option ℚ)} :
    a ∈ sortDescM l ↔ a ∈ l := by
  induction l with
  | nil => simp [sortDescM]
  | cons x xs ih => simp [sortDescM, mem_insertDescM, ih]

/-- Inserting an element whose key is below every key of a `rankedBefore`-
sorted list keeps the list `rankedBefore`-sorted. -/
theorem pairwise_insertDescM {x : String × Option ℚ} {m : List (String × Option ℚ)}
    (hkey : ∀ b ∈ m, x.1 < b.1) (hm : m.Pairwise rankedBefore) :
    (insertDescM x m).Pairwise rankedBefore := by
  induction m with
  | nil => simp [insertDescM, rankedBefore]
  | cons y ys ih =>
    rcases List.pairwise_cons.mp hm with ⟨hy, hys⟩
    by_cases h : vge x.2 y.2 = true
    · rw [insertDescM, if_pos h]
      refine List.Pairwise.cons ?_ hm
      intro b hb
      rcases List.mem_cons.mp hb with rfl | hb'
      · exact ⟨h, fun _ => hkey b (List.mem_cons_self _ _)⟩
      · exact ⟨vge_trans h (hy b hb').1, fun _ => hkey b (List.mem_cons_of_mem _ hb')⟩
    · rw [insertDescM, if_neg h]
      refine List.Pairwise.cons ?_ (ih (fun b hb => hkey b (List.mem_cons_of_mem _ hb)) hys)
      intro b hb
      rcases mem_insertDescM.mp hb with rfl | hb'
      · refine ⟨?_, fun hxy => absurd hxy h⟩
        rcases vge_total b.2 y.2 with h1 | h1
        · exact absurd h1 h
        · exact h1
      · exact hy b hb'

/-- Stable descending sort of a list with strictly ascending keys is
`rankedBefore`-sorted: descending by mean, ties in ascending key order. -/
theorem pairwise_sortDescM {l : List (String × Option ℚ)}
    (hl : l.Pairwise (fun a b => a.1 < b.1)) :
    (sortDescM l).Pairwise rankedBefore := by
  induction l with
  | nil => simp [sortDescM]
  | cons x xs ih =>
    rcases List.pairwise_cons.mp hl with ⟨hx, hxs⟩
    rw [sortDescM]
    exact pairwise_insertDescM (fun b hb => hx b (mem_sortDescM.mp hb)) (ih hxs)

/-- Membership in the sorted-key insertion step. -/
theorem mem_insertKey {a k : String} {l : List String} :
    a ∈ insertKey k l ↔ a = k ∨ a ∈ l := by
  induction l with
  | nil => simp [insertKey]
  | cons y ys ih =>
    by_cases h1 : k = y
    · subst h1
      rw [insertKey, if_pos rfl]
      simp only [List.mem_cons]
      tauto
    · by_cases h2 : k < y
      · rw [insertKey, if_neg h1, if_pos h2]
        simp only [List.mem_cons]
      · rw [insertKey, if_neg h1, if_neg h2]
        simp only [List.mem_cons, ih]
        tauto

/-- Inserting a key keeps the key list strictly ascending. -/
theorem pairwise_insertKey {k : String} {l : List String}
    (hl : l.Pairwise (fun a b => a < b)) :
    (insertKey k l).Pairwise (fun a b => a < b) := by
  induction l with
  | nil => simp [insertKey]
  | cons y ys ih =>
    rcases List.pairwise_cons.mp hl with ⟨hy, hys⟩
    by_cases h1 : k = y
    · rw [insertKey, if_pos h1]; exact hl
    · by_cases h2 : k < y
      · rw [insertKey, if_neg h1, if_pos h2]
        refine List.Pairwise.cons ?_ hl
        intro b hb
        rcases List.mem_cons.mp hb with rfl | hb'
        · exact h2
        · exact lt_trans h2 (hy b hb')
      · rw [insertKey, if_neg h1, if_neg h2]
        refine List.Pairwise.cons ?_ (ih hys)
        intro b hb
        rcases mem_insertKey.mp hb with rfl | hb'
        · rcases lt_trichotomy b y with h | h | h
          · exact absurd h h2
          · exact absurd h h1
          · exact h
        · exact hy b hb'

/-- The group keys produced by `groupby` are strictly ascending. -/
theorem pairwise_groupKeys (rows : List (String × Option ℚ)) :
    (groupKeys rows).Pairwise (fun a b => a < b) := by
  unfold groupKeys
  induction rows with
  | nil => simp
  | cons r rs ih => exact pairwise_insertKey ih

/-- The mean table has strictly ascending keys. -/
theorem pairwise_fst_groupbyMean (rows : List (String × Option ℚ)) :
    (groupbyMean rows).Pairwise (fun a b => a.1 < b.1) := by
  unfold groupbyMean
  exact List.pairwise_map.mpr (by simpa using pairwise_groupKeys rows)

/-- Every entry of the mean table pairs a key with its group mean. -/
theorem mem_groupbyMean {p : String × Option ℚ} {rows : List (String × Option ℚ)}
    (hp : p ∈ groupbyMean rows) : p = (p.1, meanOpt (ratiosOf rows p.1)) := by
  unfold groupbyMean at hp
  rcases List.mem_map.mp hp with ⟨k, _, rfl⟩
  rfl

/-- A map whose function fixes every member is the identity. -/
theorem map_eq_self_of_mem {α : Type} {f : α → α} {l : List α}
    (h : ∀ a ∈ l, f a = a) : l.map f = l := by
  induction l with
  | nil => rfl
  | cons a l ih =>
    simp only [List.map_cons, h a (List.mem_cons_self a l),
      ih (fun b hb => h b (List.mem_cons_of_mem a hb))]

/-- C3, amended.  The top-N ranking by mean groups by keyword (each entry
carries its group's arithmetic mean of the non-missing ratios) and emits
the groups in descending mean order with missing means last; but ties are
broken by ascending lexicographic keyword order (pandas groupby sorts the
group keys, and the stable model of `sort_values` preserves that order),
not by order of first occurrence. -/
theorem C3_rank_sorted_desc_ties_by_key (rows : List (String × Option ℚ)) (n : Nat) :
    (category_growth n rows).Pairwise rankedBefore ∧
    (category_growth n rows).map (fun p => (p.1, meanOpt (ratiosOf rows p.1)))
      = category_growth n rows := by
  constructor
  · exact (pairwise_sortDescM (pairwise_fst_groupbyMean rows)).sublist
      (List.take_sublist n _)
  · refine map_eq_self_of_mem ?_
    intro p hp
    have hmem : p ∈ groupbyMean rows :=
      mem_sortDescM.mp ((List.take_sublist n _).subset hp)
    exact (mem_groupbyMean hmem).symm

/-- C3, counterexample.  On the input with keyword "b" first and keyword
"a" second, both with mean ratio 1, the ranking emits "a" before "b"
(groupby sorts the group keys), while the order of first occurrence is
"b" before "a": ties are not broken by first occurrence. -/
theorem C3_ties_not_first_occurrence_cex :
    meanOpt (ratiosOf tieRows "a") = meanOpt (ratiosOf tieRows "b") ∧
    (category_growth 15 tieRows).map (fun p => p.1) = ["a", "b"] ∧
    firstOccKeys tieRows = ["b", "a"] ∧
    (["a", "b"] : List String) ≠ ["b", "a"] := by
  have hba : ¬ (("b" : String) < "a") := by
    intro hcon
    rw [String.lt_iff_toList_lt] at hcon
    revert hcon
    decide
  have hkeys : groupKeys tieRows = ["a", "b"] := by
    show insertKey "b" (insertKey "a" []) = ["a", "b"]
    rw [show insertKey "a" [] = ["a"] from rfl]
    simp only [insertKey]
    rw [if_neg (by decide : ¬ ("b" : String) = "a"), if_neg hba]
  have hra : ratiosOf tieRows "a" = [some 1] := by decide
  have hrb : ratiosOf tieRows "b" = [some 1] := by decide
  have hma : meanOpt [some (1 : ℚ)] = some 1 := by
    simp [meanOpt, List.reduceOption]
  have hgm : groupbyMean tieRows = [("a", some 1), ("b", some 1)] := by
    unfold groupbyMean
    rw [hkeys]
    simp [hra, hrb, hma]
  have hcat : (category_growth 15 tieRows).map (fun p => p.1) = ["a", "b"] := by
    unfold category_growth
    rw [hgm]
    decide
  exact ⟨by rw [hra, hrb], hcat, by decide, by decide⟩

end Trench
